import Mathlib

/-!
Verification of the MeshDD core (meshdd.py): mask classifiers, the
difference-shell construction (get_boolean_difference), vertex displacement
(displace_vertices) and texture sampling (get_vertex_color_from_texture).

Vertex coordinate arrays are modelled as lists of rows of rationals, face
arrays as lists of rows of natural-number vertex indices, boolean masks as
lists of booleans.  numpy arrays are rectangular, so a face array of shape
(n, k) is a list of rows that all have length k; numpy fancy indexing
requires indices in range and boolean masks of matching length, which is the
well-formedness assumed by the theorems below.
-/

namespace MeshDD

/-- Lookup in a boolean vertex mask, as the numpy fancy indexing
vertices_mask[v] (indices are in range for well-formed meshes). -/
def maskGet (mask : List Bool) (v : Nat) : Bool := mask.getD v false

/-- One row of get_border_faces_mask: the count of vertices inside the mask
is strictly between 0 and the arity faces.shape[1] (equal to f.length for
the rectangular face arrays numpy admits). -/
def face_border (vertices_mask : List Bool) (f : List Nat) : Bool :=
  let c := (f.map (fun v => maskGet vertices_mask v)).count true
  decide (0 < c) && decide (c < f.length)

/-- One row of np.any(vertices_mask[faces], axis=1). -/
def face_any (vertices_mask : List Bool) (f : List Nat) : Bool :=
  f.any (fun v => maskGet vertices_mask v)

/-- One row of np.all(vertices_mask[faces], axis=1). -/
def face_all (vertices_mask : List Bool) (f : List Nat) : Bool :=
  f.all (fun v => maskGet vertices_mask v)

/-- meshdd.py, get_border_faces_mask: per face, count the vertices that are
inside the mask; the face is a border face iff the count is strictly between
0 and the arity. -/
def get_border_faces_mask (faces : List (List Nat)) (vertices_mask : List Bool) : List Bool :=
  faces.map (face_border vertices_mask)

/-- meshdd.py, get_inside_faces_mask: np.any (border = true) or np.all
(border = false) of vertices_mask[faces] along each row. -/
def get_inside_faces_mask (faces : List (List Nat)) (vertices_mask : List Bool)
    (border : Bool) : List Bool :=
  if border then
    faces.map (face_any vertices_mask)
  else
    faces.map (face_all vertices_mask)

/-- numpy boolean-mask row selection xs[mask] (the mask length equals the
array length in every use below). -/
def mask_select {α : Type} (xs : List α) (mask : List Bool) : List α :=
  ((xs.zip mask).filter (fun p => p.2)).map (fun p => p.1)

/-- meshdd.py, get_border_vertices_mask: restrict the faces to the border
faces, collect their vertex ids whose mask value is the negation of
outside, and mark those ids in a fresh all-false mask of the same length as
vertices_mask (np.full_like). -/
def get_border_vertices_mask (faces : List (List Nat)) (vertices_mask : List Bool)
    (border_faces_mask : Option (List Bool)) (outside : Bool) : List Bool :=
  let bfm := border_faces_mask.getD (get_border_faces_mask faces vertices_mask)
  let border_faces := mask_select faces bfm
  let border_vertices_id :=
    if outside then
      (border_faces.map (fun f => f.filter (fun v => !maskGet vertices_mask v))).flatten
    else
      (border_faces.map (fun f => f.filter (fun v => maskGet vertices_mask v))).flatten
  (List.range vertices_mask.length).map (fun i => border_vertices_id.contains i)

/-- numpy masked assignment arr[mask] = vals: the positions where the mask
is true receive the entries of vals in order, every other position keeps its
entry. -/
def mask_assign : List Nat → List Bool → List Nat → List Nat
  | [], _, _ => []
  | arr, [], _ => arr
  | a :: arr, b :: mask, vals =>
    if b then vals.headD a :: mask_assign arr mask vals.tail
    else a :: mask_assign arr mask vals

/-- The vertex id remap table of get_boolean_difference right after the
front pass: np.arange(n), then the outside-border (anchor) positions
renumbered 0.., then the masked positions renumbered from anchor count
upward (meshdd.py lines 219, 222, 226). -/
def vertices_id_map_front (n : Nat) (anchor vertices_mask : List Bool) : List Nat :=
  mask_assign
    (mask_assign (List.range n) anchor (List.range (anchor.count true)))
    vertices_mask
    ((List.range (vertices_mask.count true)).map (fun j => anchor.count true + j))

/-- The vertex id remap table after the back pass: the masked positions of
the front table reassigned to the back-copy range (meshdd.py line 231). -/
def vertices_id_map_back (n : Nat) (anchor vertices_mask : List Bool) : List Nat :=
  mask_assign (vertices_id_map_front n anchor vertices_mask)
    vertices_mask
    ((List.range (vertices_mask.count true)).map
      (fun j => anchor.count true + vertices_mask.count true + j))

/-- meshdd.py line 210: the anchor (outside border) vertex mask of
get_boolean_difference, with the border faces mask precomputed at line 206. -/
def outside_border_vertices_mask (faces : List (List Nat)) (vertices_mask : List Bool) :
    List Bool :=
  get_border_vertices_mask faces vertices_mask
    (some (get_border_faces_mask faces vertices_mask)) true

/-- meshdd.py line 228/233: faces[faces_mask, :], the faces kept in the
output (at least one masked vertex). -/
def kept_faces (faces : List (List Nat)) (vertices_mask : List Bool) : List (List Nat) :=
  mask_select faces (get_inside_faces_mask faces vertices_mask true)

/-- meshdd.py, get_boolean_difference with a supplied vertices_mask: the
preallocated output arrays filled by successive slice assignments are the
concatenations anchors ++ front copies ++ back copies (vertices) and
front faces ++ reversed back faces (faces). -/
def get_boolean_difference (verticesA verticesB : List (List ℚ)) (faces : List (List Nat))
    (vertices_mask : List Bool) : List (List ℚ) × List (List Nat) :=
  let n := verticesA.length
  let anchor := outside_border_vertices_mask faces vertices_mask
  let id_front := vertices_id_map_front n anchor vertices_mask
  let id_back := vertices_id_map_back n anchor vertices_mask
  let diff_vertices :=
    mask_select verticesA anchor
      ++ mask_select verticesA vertices_mask
      ++ mask_select verticesB vertices_mask
  let kept := kept_faces faces vertices_mask
  let diff_faces :=
    kept.map (fun f => f.map (fun v => id_front.getD v v))
      ++ kept.map (fun f => f.reverse.map (fun v => id_back.getD v v))
  (diff_vertices, diff_faces)

/-- One row of numpy.isclose: absolute(a - b) <= atol + rtol * absolute(b),
element-wise over the coordinates. -/
def isclose_row (a b : List ℚ) (rtol atol : ℚ) : List Bool :=
  (a.zip b).map (fun p => decide (|p.1 - p.2| ≤ atol + rtol * |p.2|))

/-- meshdd.py line 198: the derived vertex mask,
np.logical_not(np.all(np.isclose(verticesA, verticesB, rtol, atol), axis=1)). -/
def derived_vertices_mask (verticesA verticesB : List (List ℚ)) (rtol atol : ℚ) : List Bool :=
  (verticesA.zip verticesB).map (fun p => !(isclose_row p.1 p.2 rtol atol).all id)

/-- meshdd.py, get_boolean_difference with vertices_mask = None: the mask is
derived from numpy.isclose and the difference is built from it. -/
def get_boolean_difference_auto (verticesA verticesB : List (List ℚ)) (faces : List (List Nat))
    (rtol atol : ℚ) : List (List ℚ) × List (List Nat) :=
  get_boolean_difference verticesA verticesB faces
    (derived_vertices_mask verticesA verticesB rtol atol)

/-- Well-formed input of get_boolean_difference: both vertex arrays aligned
with the vertex mask and every face index in range. -/
def WellFormed (verticesA verticesB : List (List ℚ)) (faces : List (List Nat))
    (vertices_mask : List Bool) : Prop :=
  verticesA.length = vertices_mask.length ∧
  verticesB.length = vertices_mask.length ∧
  ∀ f ∈ faces, ∀ v ∈ f, v < vertices_mask.length

/-- meshdd.py line 66: one clamped integer sample index of
get_vertex_color_from_texture, min(shape - 1, max(0, floor(t * shape)))
along one texture axis of size s. -/
def clamp_index (s : Nat) (x : ℚ) : Int :=
  min ((s : Int) - 1) (max 0 ⌊x * (s : ℚ)⌋)

/-- meshdd.py, get_vertex_color_from_texture for a 2-d texture of shape
(p, q): sample the texture at the clamped scaled coordinates per vertex. -/
def get_vertex_color_from_texture (tcoords : List (ℚ × ℚ)) (texture : List (List ℚ)) :
    List ℚ :=
  tcoords.map (fun t =>
    (texture.getD (clamp_index texture.length t.1).toNat []).getD
      (clamp_index (texture.headD []).length t.2).toNat 0)

/-- A numpy ndarray: row-major data together with an explicit shape (used to
model the broadcasting semantics of displace_vertices). -/
structure NDArray where
  shape : List Nat
  data : List ℚ

/-- Broadcasting one pair of axis sizes (numpy: equal, or one of them 1). -/
def broadcast_dim (a b : Nat) : Option Nat :=
  if a = b then some a
  else if a = 1 then some b
  else if b = 1 then some a
  else none

/-- Broadcasting two reversed shapes, aligned from the trailing axis. -/
def broadcast_shape_rev : List Nat → List Nat → Option (List Nat)
  | [], s => some s
  | s, [] => some s
  | a :: s1, b :: s2 =>
    match broadcast_dim a b, broadcast_shape_rev s1 s2 with
    | some c, some cs => some (c :: cs)
    | _, _ => none

/-- All multi-indices of a shape, in row-major order. -/
def all_indices : List Nat → List (List Nat)
  | [] => [[]]
  | d :: ds =>
    ((List.range d).map (fun i => (all_indices ds).map (fun idx => i :: idx))).flatten

/-- Row-major flat position of a multi-index. -/
def flat_position (shape idx : List Nat) : Nat :=
  List.foldl (fun acc p => acc * p.1 + p.2) 0 (shape.zip idx)

/-- Element of an ndarray at a broadcast multi-index: trailing axes are
aligned and size-1 axes repeat their single entry. -/
def NDArray.get (x : NDArray) (idx : List Nat) : ℚ :=
  let idx2 := idx.drop (idx.length - x.shape.length)
  let adj := (x.shape.zip idx2).map (fun p => if p.1 = 1 then 0 else p.2)
  x.data.getD (flat_position x.shape adj) 0

/-- numpy elementwise binary operation with broadcasting; none models the
ValueError numpy raises on incompatible shapes. -/
def broadcast_bin (op : ℚ → ℚ → ℚ) (x y : NDArray) : Option NDArray :=
  match broadcast_shape_rev x.shape.reverse y.shape.reverse with
  | none => none
  | some srev =>
    some ⟨srev.reverse,
      (all_indices srev.reverse).map (fun idx => op (x.get idx) (y.get idx))⟩

/-- np.atleast_1d: a 0-d scalar becomes a 1-element 1-d array. -/
def np_atleast_1d (x : NDArray) : NDArray :=
  if x.shape = [] then ⟨[1], x.data⟩ else x

/-- Indexing with [:, None]: a new axis of size 1 right after the first. -/
def insert_axis_after_first (x : NDArray) : NDArray :=
  match x.shape with
  | [] => x
  | d :: ds => ⟨d :: 1 :: ds, x.data⟩

/-- meshdd.py, displace_vertices:
vertices + np.atleast_1d(length * mask)[:, None] * directions, with the
boolean mask entries as 0/1 numbers (numpy multiplies booleans as
integers). -/
def displace_vertices (vertices directions length mask : NDArray) : Option NDArray :=
  (broadcast_bin (fun a b => a * b) length mask).bind (fun lm =>
    (broadcast_bin (fun a b => a * b) (insert_axis_after_first (np_atleast_1d lm))
        directions).bind (fun t =>
      broadcast_bin (fun a b => a + b) vertices t))

/-- numpy assignment broadcast of a source row into a row of width d: the
widths agree, or a width-1 source repeats its entry. -/
def bcast_row (d : Nat) (row : List ℚ) : List ℚ :=
  if row.length = d then row else List.replicate d (row.headD 0)

/-- get_boolean_difference together with the shape checks numpy performs
along the way: integer fancy indexing (vertices_mask[faces]) requires the
face indices to be within the mask, boolean mask indexing
(vertices_id_map[mask], verticesA[mask], verticesB[mask]) requires matching
lengths, and the back-copy slice assignment
diff_vertices[-cnt:] = verticesB[vertices_mask] requires the column count of
verticesB to equal that of verticesA or to be 1 (in which case numpy
silently broadcasts the single column). -/
def get_boolean_difference_checked (verticesA verticesB : List (List ℚ))
    (faces : List (List Nat)) (vertices_mask : List Bool) :
    Except String (List (List ℚ) × List (List Nat)) :=
  let n := verticesA.length
  let dA := (verticesA.headD []).length
  let dB := (verticesB.headD []).length
  if ¬ (faces.all (fun f => f.all (fun v => v < vertices_mask.length)) = true) then
    Except.error "index out of bounds in vertices_mask[faces]"
  else if ¬ (vertices_mask.length = n) then
    Except.error "boolean index length mismatch on verticesA"
  else if ¬ (vertices_mask.length = verticesB.length) then
    Except.error "boolean index length mismatch on verticesB"
  else if ¬ (dB = dA ∨ dB = 1) then
    Except.error "could not broadcast verticesB columns into the output"
  else
    let anchor := outside_border_vertices_mask faces vertices_mask
    let id_front := vertices_id_map_front n anchor vertices_mask
    let id_back := vertices_id_map_back n anchor vertices_mask
    let kept := kept_faces faces vertices_mask
    Except.ok
      (mask_select verticesA anchor ++ mask_select verticesA vertices_mask
          ++ (mask_select verticesB vertices_mask).map (bcast_row dA),
        kept.map (fun f => f.map (fun v => id_front.getD v v))
          ++ kept.map (fun f => f.reverse.map (fun v => id_back.getD v v)))

/-! ### Basic list access lemmas -/

theorem range_getD (n i d : Nat) (h : i < n) : (List.range n).getD i d = i := by
  rw [List.getD_eq_getElem _ _ (by simpa using h)]
  simp

theorem getD_map {α β : Type} (f : α → β) (l : List α) (i : Nat) (da : α) (db : β)
    (h : i < l.length) : (l.map f).getD i db = f (l.getD i da) := by
  rw [List.getD_eq_getElem _ _ (by simpa using h), List.getD_eq_getElem _ _ h]
  simp

theorem getD_append_left {α : Type} (xs ys : List α) (i : Nat) (d : α)
    (h : i < xs.length) : (xs ++ ys).getD i d = xs.getD i d := by
  rw [List.getD_eq_getElem _ _ (by simp; omega), List.getD_eq_getElem _ _ h]
  exact List.getElem_append_left _

theorem getD_append_right {α : Type} (xs ys : List α) (i : Nat) (d : α)
    (h : i < ys.length) : (xs ++ ys).getD (xs.length + i) d = ys.getD i d := by
  rw [List.getD_eq_getElem _ _ (by simp; omega), List.getD_eq_getElem _ _ h]
  simp [List.getElem_append_right]

theorem getD_reverse {α : Type} (l : List α) (i : Nat) (d : α) (h : i < l.length) :
    l.reverse.getD i d = l.getD (l.length - 1 - i) d := by
  rw [List.getD_eq_getElem _ _ (by simpa using h), List.getD_eq_getElem _ _ (by omega)]
  simp [List.getElem_reverse]

theorem getD_tail {α : Type} (l : List α) (i : Nat) (d : α) :
    l.getD (i + 1) d = l.tail.getD i d := by
  cases l <;> simp [List.getD]

theorem headD_eq_getD {α : Type} (l : List α) (d : α) : l.headD d = l.getD 0 d := by
  cases l <;> rfl

theorem getD_mem {α : Type} (l : List α) (i : Nat) (d : α) (h : i < l.length) :
    l.getD i d ∈ l := by
  rw [List.getD_eq_getElem _ _ h]
  exact List.getElem_mem _

/-- Counting true before a position where a boolean list is true stays
strictly below the total count. -/
theorem count_take_lt (l : List Bool) (i : Nat) (h : l.getD i false = true) :
    (l.take i).count true < l.count true := by
  induction l generalizing i with
  | nil => simp [List.getD] at h
  | cons b l ih =>
    cases i with
    | zero =>
      have hb : b = true := by simpa using h
      subst hb
      simp
    | succ i =>
      have h2 : l.getD i false = true := by simpa [List.getD] using h
      have := ih i h2
      cases b <;> simp [List.count_cons] <;> omega

/-! ### mask_assign lemmas -/

theorem mask_assign_length (arr : List Nat) (mask : List Bool) (vals : List Nat) :
    (MeshDD.mask_assign arr mask vals).length = arr.length := by
  induction arr generalizing mask vals with
  | nil => cases mask <;> rfl
  | cons a arr ih =>
    cases mask with
    | nil => rfl
    | cons b mask => cases b <;> simp [MeshDD.mask_assign, ih]

/-- Positions where the mask is false (or beyond the mask) are unchanged by
a masked assignment. -/
theorem mask_assign_getD_neg (arr : List Nat) (mask : List Bool) (vals : List Nat)
    (i d : Nat) (h : mask.getD i false = false) :
    (MeshDD.mask_assign arr mask vals).getD i d = arr.getD i d := by
  induction arr generalizing mask vals i with
  | nil => cases mask <;> rfl
  | cons a arr ih =>
    cases mask with
    | nil => rfl
    | cons b mask =>
      cases i with
      | zero =>
        cases b with
        | false => simp [MeshDD.mask_assign]
        | true => simp [List.getD] at h
      | succ i =>
        have h2 : mask.getD i false = false := by simpa [List.getD] using h
        cases b with
        | true =>
          show (vals.headD a :: MeshDD.mask_assign arr mask vals.tail).getD (i + 1) d
            = (a :: arr).getD (i + 1) d
          rw [List.getD_cons_succ, List.getD_cons_succ, ih _ _ _ h2]
        | false =>
          show (a :: MeshDD.mask_assign arr mask vals).getD (i + 1) d
            = (a :: arr).getD (i + 1) d
          rw [List.getD_cons_succ, List.getD_cons_succ, ih _ _ _ h2]

/-- A position where the mask is true receives the value indexed by the
number of true mask entries before it. -/
theorem mask_assign_getD_pos (arr : List Nat) (mask : List Bool) (vals : List Nat)
    (i d : Nat) (hi : i < arr.length) (h : mask.getD i false = true) :
    (MeshDD.mask_assign arr mask vals).getD i d
      = vals.getD ((mask.take i).count true) (arr.getD i d) := by
  induction arr generalizing mask vals i with
  | nil => simp at hi
  | cons a arr ih =>
    cases mask with
    | nil => simp [List.getD] at h
    | cons b mask =>
      cases i with
      | zero =>
        have hb : b = true := by simpa using h
        subst hb
        show (vals.headD a :: MeshDD.mask_assign arr mask vals.tail).getD 0 d
          = vals.getD (((true :: mask).take 0).count true) ((a :: arr).getD 0 d)
        cases vals <;> simp
      | succ i =>
        have hi2 : i < arr.length := by simpa using hi
        have h2 : mask.getD i false = true := by simpa [List.getD] using h
        cases b with
        | true =>
          show (vals.headD a :: MeshDD.mask_assign arr mask vals.tail).getD (i + 1) d
            = vals.getD (((true :: mask).take (i + 1)).count true) ((a :: arr).getD (i + 1) d)
          rw [List.getD_cons_succ, List.getD_cons_succ, ih _ _ _ hi2 h2, ← getD_tail]
          simp [List.take_succ_cons, List.count_cons]
        | false =>
          show (a :: MeshDD.mask_assign arr mask vals).getD (i + 1) d
            = vals.getD (((false :: mask).take (i + 1)).count true) ((a :: arr).getD (i + 1) d)
          rw [List.getD_cons_succ, List.getD_cons_succ, ih _ _ _ hi2 h2]
          simp [List.take_succ_cons, List.count_cons]

/-! ### mask_select lemmas -/

theorem mask_select_cons {α : Type} (x : α) (xs : List α) (b : Bool) (bs : List Bool) :
    mask_select (x :: xs) (b :: bs)
      = if b then x :: mask_select xs bs else mask_select xs bs := by
  cases b <;> simp [mask_select]

theorem mask_select_length {α : Type} (xs : List α) (mask : List Bool)
    (h : xs.length = mask.length) :
    (mask_select xs mask).length = mask.count true := by
  induction xs generalizing mask with
  | nil =>
    cases mask with
    | nil => simp [mask_select]
    | cons b bs => simp at h
  | cons x xs ih =>
    cases mask with
    | nil => simp at h
    | cons b bs =>
      have h2 : xs.length = bs.length := by simpa using h
      cases b <;> simp [mask_select_cons, ih bs h2, List.count_cons]

theorem mask_select_map_length {α : Type} (g : α → Bool) (xs : List α) :
    (mask_select xs (xs.map g)).length = (xs.map g).count true :=
  mask_select_length xs (xs.map g) (by simp)

/-- Membership in a selection by the pointwise mask xs.map g. -/
theorem mem_mask_select_map {α : Type} (g : α → Bool) (xs : List α) (y : α) :
    y ∈ mask_select xs (xs.map g) ↔ y ∈ xs ∧ g y = true := by
  induction xs with
  | nil => simp [mask_select]
  | cons x xs ih =>
    simp only [List.map_cons, mask_select_cons]
    by_cases hg : g x = true
    · rw [if_pos hg]
      constructor
      · intro hy
        rcases List.mem_cons.mp hy with rfl | hy2
        · exact ⟨List.mem_cons_self _ _, hg⟩
        · obtain ⟨h1, h2⟩ := ih.mp hy2
          exact ⟨List.mem_cons_of_mem _ h1, h2⟩
      · rintro ⟨h1, h2⟩
        rcases List.mem_cons.mp h1 with rfl | h1b
        · exact List.mem_cons_self _ _
        · exact List.mem_cons_of_mem _ (ih.mpr ⟨h1b, h2⟩)
    · rw [if_neg hg]
      constructor
      · intro hy
        obtain ⟨h1, h2⟩ := ih.mp hy
        exact ⟨List.mem_cons_of_mem _ h1, h2⟩
      · rintro ⟨h1, h2⟩
        rcases List.mem_cons.mp h1 with rfl | h1b
        · exact absurd h2 hg
        · exact ih.mpr ⟨h1b, h2⟩

/-! ### Border vertices characterization -/

theorem get_border_vertices_mask_length (faces : List (List Nat)) (mask : List Bool)
    (bfm : Option (List Bool)) (outside : Bool) :
    (get_border_vertices_mask faces mask bfm outside).length = mask.length := by
  simp [get_border_vertices_mask]

/-- Supplying the computed border faces mask is the same as omitting it
(Option.getD on the precomputed argument). -/
theorem get_border_vertices_mask_none (faces : List (List Nat)) (mask : List Bool)
    (outside : Bool) :
    get_border_vertices_mask faces mask none outside
      = get_border_vertices_mask faces mask (some (get_border_faces_mask faces mask)) outside :=
  rfl

/-- The outside border vertex mask holds at i iff some border face contains
i and i is not masked. -/
theorem outside_border_getD_iff (faces : List (List Nat)) (mask : List Bool) (i : Nat)
    (h : i < mask.length) :
    ((get_border_vertices_mask faces mask (some (get_border_faces_mask faces mask)) true).getD
        i false = true
      ↔ ∃ f ∈ faces, face_border mask f = true ∧ i ∈ f ∧ maskGet mask i = false) := by
  unfold get_border_vertices_mask
  rw [getD_map _ _ _ 0 _ (by simpa using h), range_getD _ _ _ h]
  simp only [Option.getD_some]
  rw [if_pos trivial]
  simp only [List.contains, List.elem_iff, List.mem_flatten, List.mem_map]
  constructor
  · rintro ⟨l, ⟨f, hf, rfl⟩, hil⟩
    obtain ⟨hif, hneg⟩ := List.mem_filter.mp hil
    obtain ⟨hfaces, hborder⟩ := (mem_mask_select_map (face_border mask) faces f).mp hf
    exact ⟨f, hfaces, hborder, hif, by simpa using hneg⟩
  · rintro ⟨f, hfaces, hborder, hif, hneg⟩
    refine ⟨f.filter (fun v => !maskGet mask v), ⟨f, ?_, rfl⟩, ?_⟩
    · exact (mem_mask_select_map (face_border mask) faces f).mpr ⟨hfaces, hborder⟩
    · exact List.mem_filter.mpr ⟨hif, by simpa using hneg⟩

/-- The inside border vertex mask holds at i iff some border face contains
i and i is masked. -/
theorem inside_border_getD_iff (faces : List (List Nat)) (mask : List Bool) (i : Nat)
    (h : i < mask.length) :
    ((get_border_vertices_mask faces mask (some (get_border_faces_mask faces mask)) false).getD
        i false = true
      ↔ ∃ f ∈ faces, face_border mask f = true ∧ i ∈ f ∧ maskGet mask i = true) := by
  unfold get_border_vertices_mask
  rw [getD_map _ _ _ 0 _ (by simpa using h), range_getD _ _ _ h]
  simp only [Option.getD_some]
  rw [if_neg (by simp)]
  simp only [List.contains, List.elem_iff, List.mem_flatten, List.mem_map]
  constructor
  · rintro ⟨l, ⟨f, hf, rfl⟩, hil⟩
    obtain ⟨hif, hpos⟩ := List.mem_filter.mp hil
    obtain ⟨hfaces, hborder⟩ := (mem_mask_select_map (face_border mask) faces f).mp hf
    exact ⟨f, hfaces, hborder, hif, hpos⟩
  · rintro ⟨f, hfaces, hborder, hif, hpos⟩
    refine ⟨f.filter (fun v => maskGet mask v), ⟨f, ?_, rfl⟩, ?_⟩
    · exact (mem_mask_select_map (face_border mask) faces f).mpr ⟨hfaces, hborder⟩
    · exact List.mem_filter.mpr ⟨hif, hpos⟩

/-! ### Remap table characterization -/

theorem vertices_id_map_front_length (n : Nat) (anchor mask : List Bool) :
    (vertices_id_map_front n anchor mask).length = n := by
  simp [vertices_id_map_front, mask_assign_length]

theorem vertices_id_map_back_length (n : Nat) (anchor mask : List Bool) :
    (vertices_id_map_back n anchor mask).length = n := by
  simp [vertices_id_map_back, mask_assign_length, vertices_id_map_front_length]

/-- The remap table after the front pass: masked vertices are numbered from
the anchor count, anchors from 0, any other vertex keeps its original id. -/
theorem vertices_id_map_front_getD (n : Nat) (anchor mask : List Bool) (i d : Nat)
    (hi : i < n) :
    (vertices_id_map_front n anchor mask).getD i d
      = if maskGet mask i then anchor.count true + (mask.take i).count true
        else if maskGet anchor i then (anchor.take i).count true
        else i := by
  unfold vertices_id_map_front
  by_cases hm : maskGet mask i = true
  · have hlen : i < (mask_assign (List.range n) anchor
        (List.range (anchor.count true))).length := by
      rw [mask_assign_length]; simpa using hi
    rw [mask_assign_getD_pos _ _ _ _ _ hlen hm]
    have hidx : (mask.take i).count true < mask.count true := count_take_lt mask i hm
    rw [getD_map _ _ _ 0 _ (by simpa using hidx), range_getD _ _ _ hidx, if_pos hm]
  · have hm2 : maskGet mask i = false := by simpa using hm
    rw [mask_assign_getD_neg _ _ _ _ _ hm2, if_neg hm]
    by_cases ha : maskGet anchor i = true
    · have hlen : i < (List.range n).length := by simpa using hi
      rw [mask_assign_getD_pos _ _ _ _ _ hlen ha]
      have hidx : (anchor.take i).count true < anchor.count true := count_take_lt anchor i ha
      rw [range_getD _ _ _ hidx, if_pos ha]
    · have ha2 : maskGet anchor i = false := by simpa using ha
      rw [mask_assign_getD_neg _ _ _ _ _ ha2, range_getD _ _ _ hi, if_neg ha]

/-- The remap table after the back pass: masked vertices move to the
back-copy range, every other entry is as after the front pass. -/
theorem vertices_id_map_back_getD (n : Nat) (anchor mask : List Bool) (i d : Nat)
    (hi : i < n) :
    (vertices_id_map_back n anchor mask).getD i d
      = if maskGet mask i then
          anchor.count true + mask.count true + (mask.take i).count true
        else if maskGet anchor i then (anchor.take i).count true
        else i := by
  unfold vertices_id_map_back
  by_cases hm : maskGet mask i = true
  · have hlen : i < (vertices_id_map_front n anchor mask).length := by
      rw [vertices_id_map_front_length]; exact hi
    rw [mask_assign_getD_pos _ _ _ _ _ hlen hm]
    have hidx : (mask.take i).count true < mask.count true := count_take_lt mask i hm
    rw [getD_map _ _ _ 0 _ (by simpa using hidx), range_getD _ _ _ hidx, if_pos hm]
  · have hm2 : maskGet mask i = false := by simpa using hm
    rw [mask_assign_getD_neg _ _ _ _ _ hm2, vertices_id_map_front_getD _ _ _ _ _ hi,
      if_neg hm, if_neg hm]

/-- The back id of a vertex is its front id shifted by the number of masked
vertices exactly when the vertex is masked. -/
theorem id_back_eq_front_add (n : Nat) (anchor mask : List Bool) (i d : Nat) (hi : i < n) :
    (vertices_id_map_back n anchor mask).getD i d
      = (vertices_id_map_front n anchor mask).getD i d
        + (if maskGet mask i then mask.count true else 0) := by
  rw [vertices_id_map_front_getD _ _ _ _ _ hi, vertices_id_map_back_getD _ _ _ _ _ hi]
  by_cases hm : maskGet mask i = true
  · rw [if_pos hm, if_pos hm, if_pos hm]; omega
  · rw [if_neg hm, if_neg hm, if_neg hm]; omega

theorem id_front_lt (n : Nat) (anchor mask : List Bool) (i d : Nat) (hi : i < n)
    (h : maskGet mask i = true ∨ maskGet anchor i = true) :
    (vertices_id_map_front n anchor mask).getD i d
      < anchor.count true + 2 * mask.count true := by
  rw [vertices_id_map_front_getD _ _ _ _ _ hi]
  by_cases hm : maskGet mask i = true
  · rw [if_pos hm]
    have := count_take_lt mask i hm
    omega
  · have ha : maskGet anchor i = true := h.resolve_left hm
    rw [if_neg hm, if_pos ha]
    have := count_take_lt anchor i ha
    omega

theorem id_back_lt (n : Nat) (anchor mask : List Bool) (i d : Nat) (hi : i < n)
    (h : maskGet mask i = true ∨ maskGet anchor i = true) :
    (vertices_id_map_back n anchor mask).getD i d
      < anchor.count true + 2 * mask.count true := by
  rw [vertices_id_map_back_getD _ _ _ _ _ hi]
  by_cases hm : maskGet mask i = true
  · rw [if_pos hm]
    have := count_take_lt mask i hm
    omega
  · have ha : maskGet anchor i = true := h.resolve_left hm
    rw [if_neg hm, if_pos ha]
    have := count_take_lt anchor i ha
    omega

/-! ### Face classification -/

theorem count_true_lt_of_mem_false (p : Nat → Bool) (f : List Nat) (v : Nat)
    (hv : v ∈ f) (hp : p v = false) :
    (f.map p).count true < f.length := by
  have h1 : (f.map p).count true + (f.map p).count false = (f.map p).length := by
    simp [List.count_true_add_count_false]
  have h2 : (false : Bool) ∈ f.map p := List.mem_map.mpr ⟨v, hv, hp⟩
  have h3 : 0 < (f.map p).count false := List.count_pos_iff.mpr h2
  have h4 : (f.map p).length = f.length := by simp
  omega

/-- A face containing a masked and an unmasked vertex is a border face. -/
theorem face_border_of_mixed (mask : List Bool) (f : List Nat) (w v : Nat)
    (hw : w ∈ f) (hwm : maskGet mask w = true)
    (hv : v ∈ f) (hvm : maskGet mask v = false) :
    face_border mask f = true := by
  unfold face_border
  simp only [Bool.and_eq_true, decide_eq_true_eq]
  refine ⟨?_, ?_⟩
  · exact List.count_pos_iff.mpr (List.mem_map.mpr ⟨w, hw, hwm⟩)
  · exact count_true_lt_of_mem_false (maskGet mask) f v hv hvm

/-- An unmasked vertex of a face that meets the mask is an outside border
(anchor) vertex. -/
theorem anchor_of_kept_unmasked (faces : List (List Nat)) (mask : List Bool)
    (f : List Nat) (hf : f ∈ faces) (hany : face_any mask f = true)
    (v : Nat) (hv : v ∈ f) (hvm : maskGet mask v = false) (hvlt : v < mask.length) :
    maskGet (get_border_vertices_mask faces mask
      (some (get_border_faces_mask faces mask)) true) v = true := by
  obtain ⟨w, hw, hwm⟩ := List.any_eq_true.mp hany
  exact (outside_border_getD_iff faces mask v hvlt).mpr
    ⟨f, hf, face_border_of_mixed mask f w v hw hwm hv hvm, hv, hvm⟩

/-! ### Output access lemmas -/

theorem inside_faces_true_eq (faces : List (List Nat)) (mask : List Bool) :
    get_inside_faces_mask faces mask true = faces.map (face_any mask) := rfl

theorem inside_faces_false_eq (faces : List (List Nat)) (mask : List Bool) :
    get_inside_faces_mask faces mask false = faces.map (face_all mask) := rfl

theorem kept_faces_length (faces : List (List Nat)) (mask : List Bool) :
    (kept_faces faces mask).length = (get_inside_faces_mask faces mask true).count true := by
  unfold kept_faces
  exact mask_select_length faces _ (by simp [inside_faces_true_eq])

/-- The vertex rows of the difference mesh: anchors once, masked vertices
twice. -/
theorem diff_vertices_length (A B : List (List ℚ)) (faces : List (List Nat))
    (mask : List Bool) (hA : A.length = mask.length) (hB : B.length = mask.length) :
    (get_boolean_difference A B faces mask).1.length
      = (outside_border_vertices_mask faces mask).count true + 2 * mask.count true := by
  unfold get_boolean_difference
  simp only [List.length_append]
  have hanchor : A.length = (outside_border_vertices_mask faces mask).length := by
    rw [hA]
    unfold outside_border_vertices_mask
    rw [get_border_vertices_mask_length]
  rw [mask_select_length A _ hanchor, mask_select_length A mask hA, mask_select_length B mask hB]
  omega

/-- The face rows of the difference mesh: every kept face twice. -/
theorem diff_faces_length (A B : List (List ℚ)) (faces : List (List Nat))
    (mask : List Bool) :
    (get_boolean_difference A B faces mask).2.length
      = 2 * (get_inside_faces_mask faces mask true).count true := by
  unfold get_boolean_difference
  simp only [List.length_append, List.length_map]
  rw [kept_faces_length]
  omega

/-- The i-th output face is the i-th kept face remapped through the front
table. -/
theorem diff_faces_getD_front (A B : List (List ℚ)) (faces : List (List Nat))
    (mask : List Bool) (i : Nat)
    (hi : i < (get_inside_faces_mask faces mask true).count true) :
    (get_boolean_difference A B faces mask).2.getD i []
      = (kept_faces faces mask |>.getD i []).map
          (fun v => (vertices_id_map_front A.length
            (outside_border_vertices_mask faces mask) mask).getD v v) := by
  unfold get_boolean_difference
  rw [getD_append_left _ _ _ _ (by simp only [List.length_map]; rw [kept_faces_length]; exact hi)]
  rw [getD_map _ _ _ [] _ (by rw [kept_faces_length]; exact hi)]

/-- The output face at index count + i is the i-th kept face reversed and
remapped through the back table. -/
theorem diff_faces_getD_back (A B : List (List ℚ)) (faces : List (List Nat))
    (mask : List Bool) (i : Nat)
    (hi : i < (get_inside_faces_mask faces mask true).count true) :
    (get_boolean_difference A B faces mask).2.getD
        ((get_inside_faces_mask faces mask true).count true + i) []
      = ((kept_faces faces mask |>.getD i []).reverse).map
          (fun v => (vertices_id_map_back A.length
            (outside_border_vertices_mask faces mask) mask).getD v v) := by
  unfold get_boolean_difference
  have hlen : ((kept_faces faces mask).map
      (fun f => f.map (fun v => (vertices_id_map_front A.length
        (outside_border_vertices_mask faces mask) mask).getD v v))).length
      = (get_inside_faces_mask faces mask true).count true := by
    simp only [List.length_map]; rw [kept_faces_length]
  rw [← hlen, getD_append_right _ _ _ _
    (by simp only [List.length_map]; rw [kept_faces_length]; exact hi)]
  rw [getD_map _ _ _ [] _ (by rw [kept_faces_length]; exact hi)]

/-! ### Per-face characterizations -/

theorem getD_of_length_le {α : Type} (l : List α) (i : Nat) (d : α) (h : l.length ≤ i) :
    l.getD i d = d := by
  rw [List.getD_eq_getElem?_getD, List.getElem?_eq_none (by simpa using h)]
  rfl

theorem face_any_true_iff (mask : List Bool) (f : List Nat) :
    face_any mask f = true ↔ 0 < (f.map (maskGet mask)).count true := by
  unfold face_any
  rw [List.any_eq_true]
  constructor
  · rintro ⟨v, hv, hm⟩
    exact List.count_pos_iff.mpr (List.mem_map.mpr ⟨v, hv, hm⟩)
  · intro h
    obtain ⟨v, hv, hvm⟩ := List.mem_map.mp (List.count_pos_iff.mp h)
    exact ⟨v, hv, hvm⟩

theorem face_all_true_iff (mask : List Bool) (f : List Nat) :
    face_all mask f = true ↔ (f.map (maskGet mask)).count true = f.length := by
  unfold face_all
  rw [List.all_eq_true]
  constructor
  · intro h
    have h2 : ∀ b ∈ f.map (maskGet mask), true = b := by
      rintro b hb
      obtain ⟨v, hv, rfl⟩ := List.mem_map.mp hb
      exact (h v hv).symm
    have := List.count_eq_length.mpr h2
    simpa using this
  · intro h v hv
    have h3 : (f.map (maskGet mask)).count true = (f.map (maskGet mask)).length := by
      simpa using h
    have h2 := List.count_eq_length.mp h3
    exact (h2 (maskGet mask v) (List.mem_map.mpr ⟨v, hv, rfl⟩)).symm

theorem face_border_true_iff (mask : List Bool) (f : List Nat) :
    face_border mask f = true
      ↔ 0 < (f.map (maskGet mask)).count true
        ∧ (f.map (maskGet mask)).count true < f.length := by
  simp [face_border]

/-- Any-masked is all-masked or border, for a face of positive arity. -/
theorem face_any_eq_all_or_border (mask : List Bool) (f : List Nat) (hf : f ≠ []) :
    face_any mask f = (face_all mask f || face_border mask f) := by
  rw [Bool.eq_iff_iff, Bool.or_eq_true, face_any_true_iff, face_all_true_iff,
    face_border_true_iff]
  have hc : (f.map (maskGet mask)).count true ≤ f.length := by
    simpa using List.count_le_length true (f.map (maskGet mask))
  have hlen : 0 < f.length := List.length_pos.mpr hf
  omega

theorem face_all_border_disjoint (mask : List Bool) (f : List Nat) :
    ¬ (face_all mask f = true ∧ face_border mask f = true) := by
  rintro ⟨h1, h2⟩
  rw [face_all_true_iff] at h1
  rw [face_border_true_iff] at h2
  omega

/-! ### Claim theorems: mask classifier algebra -/

/-- Claim C5: for every face array with faces of positive arity and every
vertex mask, a face is selected by insideFaces(includeBorder=true) iff it is
selected by insideFaces(includeBorder=false) or by borderFaces, and
borderFaces and insideFaces(includeBorder=false) never both hold. -/
theorem inside_union_border_partition (faces : List (List Nat)) (mask : List Bool)
    (hk : ∀ f ∈ faces, f ≠ []) :
    (∀ i : Nat,
        (get_inside_faces_mask faces mask true).getD i false
          = ((get_inside_faces_mask faces mask false).getD i false
              || (get_border_faces_mask faces mask).getD i false))
      ∧ ∀ i : Nat,
          ¬ ((get_border_faces_mask faces mask).getD i false = true
              ∧ (get_inside_faces_mask faces mask false).getD i false = true) := by
  constructor
  · intro i
    by_cases hi : i < faces.length
    · rw [inside_faces_true_eq, inside_faces_false_eq]
      unfold get_border_faces_mask
      rw [getD_map _ _ _ [] _ hi, getD_map _ _ _ [] _ hi, getD_map _ _ _ [] _ hi]
      exact face_any_eq_all_or_border mask _ (hk _ (getD_mem faces i [] hi))
    · have h1 : faces.length ≤ i := Nat.le_of_not_lt hi
      rw [inside_faces_true_eq, inside_faces_false_eq]
      unfold get_border_faces_mask
      rw [getD_of_length_le _ _ _ (by simpa using h1),
          getD_of_length_le _ _ _ (by simpa using h1),
          getD_of_length_le _ _ _ (by simpa using h1)]
      rfl
  · rintro i ⟨hb, ha⟩
    by_cases hi : i < faces.length
    · rw [inside_faces_false_eq, getD_map _ _ _ [] _ hi] at ha
      unfold get_border_faces_mask at hb
      rw [getD_map _ _ _ [] _ hi] at hb
      exact face_all_border_disjoint mask _ ⟨ha, hb⟩
    · unfold get_border_faces_mask at hb
      rw [getD_of_length_le _ _ _ (by simp; omega)] at hb
      exact absurd hb (by simp)

/-- Witness for C5 at a concrete quad mesh. -/
theorem inside_union_border_partition_witness :
    (∀ i : Nat,
        (get_inside_faces_mask [[0, 1, 2], [1, 2, 3]] [true, false, false, true] true).getD i false
          = ((get_inside_faces_mask [[0, 1, 2], [1, 2, 3]] [true, false, false, true] false).getD
                i false
              || (get_border_faces_mask [[0, 1, 2], [1, 2, 3]]
                    [true, false, false, true]).getD i false))
      ∧ ∀ i : Nat,
          ¬ ((get_border_faces_mask [[0, 1, 2], [1, 2, 3]]
                [true, false, false, true]).getD i false = true
              ∧ (get_inside_faces_mask [[0, 1, 2], [1, 2, 3]]
                  [true, false, false, true] false).getD i false = true) :=
  inside_union_border_partition [[0, 1, 2], [1, 2, 3]] [true, false, false, true] (by decide)

/-- Claim C6: the outside and inside border vertex masks are disjoint and
their union marks exactly the vertices referenced by border faces. -/
theorem border_vertices_partition (faces : List (List Nat)) (mask : List Bool)
    (hwf : ∀ f ∈ faces, ∀ v ∈ f, v < mask.length) :
    (∀ i : Nat,
        ¬ ((get_border_vertices_mask faces mask none true).getD i false = true
            ∧ (get_border_vertices_mask faces mask none false).getD i false = true))
      ∧ ∀ i : Nat,
          ((get_border_vertices_mask faces mask none true).getD i false = true
            ∨ (get_border_vertices_mask faces mask none false).getD i false = true)
            ↔ ∃ f ∈ faces, face_border mask f = true ∧ i ∈ f := by
  rw [get_border_vertices_mask_none faces mask true,
    get_border_vertices_mask_none faces mask false]
  constructor
  · rintro i ⟨h1, h2⟩
    by_cases hi : i < mask.length
    · obtain ⟨f1, hf1, hb1, hi1, hm1⟩ := (outside_border_getD_iff faces mask i hi).mp h1
      obtain ⟨f2, hf2, hb2, hi2, hm2⟩ := (inside_border_getD_iff faces mask i hi).mp h2
      rw [hm1] at hm2
      exact absurd hm2 (by simp)
    · rw [getD_of_length_le _ _ _ (by rw [get_border_vertices_mask_length]; omega)] at h1
      exact absurd h1 (by simp)
  · intro i
    by_cases hi : i < mask.length
    · rw [outside_border_getD_iff faces mask i hi, inside_border_getD_iff faces mask i hi]
      constructor
      · rintro (⟨f, hf, hb, hif, _⟩ | ⟨f, hf, hb, hif, _⟩) <;> exact ⟨f, hf, hb, hif⟩
      · rintro ⟨f, hf, hb, hif⟩
        by_cases hm : maskGet mask i = true
        · exact Or.inr ⟨f, hf, hb, hif, hm⟩
        · exact Or.inl ⟨f, hf, hb, hif, by simpa using hm⟩
    · constructor
      · intro h
        rcases h with h | h <;>
          · rw [getD_of_length_le _ _ _
              (by rw [get_border_vertices_mask_length]; omega)] at h
            exact absurd h (by simp)
      · rintro ⟨f, hf, _, hif⟩
        exact absurd (hwf f hf i hif) (by omega)

/-- Witness for C6 at a concrete quad mesh. -/
theorem border_vertices_partition_witness :
    (∀ i : Nat,
        ¬ ((get_border_vertices_mask [[0, 1, 2], [1, 2, 3]] [true, false, false, true]
              none true).getD i false = true
            ∧ (get_border_vertices_mask [[0, 1, 2], [1, 2, 3]] [true, false, false, true]
                none false).getD i false = true))
      ∧ ∀ i : Nat,
          ((get_border_vertices_mask [[0, 1, 2], [1, 2, 3]] [true, false, false, true]
              none true).getD i false = true
            ∨ (get_border_vertices_mask [[0, 1, 2], [1, 2, 3]] [true, false, false, true]
                none false).getD i false = true)
            ↔ ∃ f ∈ [[0, 1, 2], [1, 2, 3]],
                face_border [true, false, false, true] f = true ∧ i ∈ f :=
  border_vertices_partition [[0, 1, 2], [1, 2, 3]] [true, false, false, true] (by decide)

/-- Claim C2: the difference mesh has |anchorMask| + 2|vertexMask| vertex
rows and 2|faceMask| face rows. -/
theorem boolean_difference_sizes (A B : List (List ℚ)) (faces : List (List Nat))
    (mask : List Bool) (hA : A.length = mask.length) (hB : B.length = mask.length) :
    (get_boolean_difference A B faces mask).1.length
        = (outside_border_vertices_mask faces mask).count true + 2 * mask.count true
      ∧ (get_boolean_difference A B faces mask).2.length
        = 2 * (get_inside_faces_mask faces mask true).count true :=
  ⟨diff_vertices_length A B faces mask hA hB, diff_faces_length A B faces mask⟩

/-- Witness for C2 at the unit tetrahedron with one masked vertex. -/
theorem boolean_difference_sizes_witness :
    (get_boolean_difference
          [[0, 0, 0], [1, 0, 0], [0, 1, 0], [0, 0, 1]]
          [[0, 0, 9], [1, 0, 0], [0, 1, 0], [0, 0, 1]]
          [[0, 1, 2], [0, 1, 3], [0, 2, 3], [1, 2, 3]]
          [true, false, false, false]).1.length
        = (outside_border_vertices_mask [[0, 1, 2], [0, 1, 3], [0, 2, 3], [1, 2, 3]]
            [true, false, false, false]).count true
          + 2 * ([true, false, false, false] : List Bool).count true
      ∧ (get_boolean_difference
          [[0, 0, 0], [1, 0, 0], [0, 1, 0], [0, 0, 1]]
          [[0, 0, 9], [1, 0, 0], [0, 1, 0], [0, 0, 1]]
          [[0, 1, 2], [0, 1, 3], [0, 2, 3], [1, 2, 3]]
          [true, false, false, false]).2.length
        = 2 * (get_inside_faces_mask [[0, 1, 2], [0, 1, 3], [0, 2, 3], [1, 2, 3]]
            [true, false, false, false] true).count true :=
  boolean_difference_sizes _ _ _ _ (by decide) (by decide)

/-! ### Derived mask lemmas and claims C3, C4 -/

theorem getD_zip {α β : Type} (A : List α) (B : List β) (i : Nat) (da : α) (db : β)
    (hiA : i < A.length) (hiB : i < B.length) :
    (A.zip B).getD i (da, db) = (A.getD i da, B.getD i db) := by
  rw [List.getD_eq_getElem _ _ (by rw [List.length_zip]; omega), List.getElem_zip,
      List.getD_eq_getElem _ _ hiA, List.getD_eq_getElem _ _ hiB]

theorem derived_vertices_mask_getD (A B : List (List ℚ)) (rtol atol : ℚ) (i : Nat)
    (hiA : i < A.length) (hiB : i < B.length) :
    (derived_vertices_mask A B rtol atol).getD i false
      = !(isclose_row (A.getD i []) (B.getD i []) rtol atol).all id := by
  unfold derived_vertices_mask
  have hz : i < (A.zip B).length := by rw [List.length_zip]; omega
  rw [getD_map _ _ _ ([], []) _ hz, getD_zip A B i [] [] hiA hiB]

theorem isclose_row_all_iff (a b : List ℚ) (rtol atol : ℚ) :
    ((isclose_row a b rtol atol).all id = true)
      ↔ ∀ p ∈ a.zip b, |p.1 - p.2| ≤ atol + rtol * |p.2| := by
  simp [isclose_row, List.all_eq_true]

/-- Claim C3: the auto-derived mask marks vertex i iff not all of its
per-coordinate values are within atol + rtol*|b| of each other; with
rtol = 0, a vertex whose coordinates differ by at most atol (in particular
exactly atol) is unmasked, and with atol > 0 a vertex with a coordinate
differing by 2*atol is masked. -/
theorem derived_mask_spec (A B : List (List ℚ)) (rtol atol : ℚ) (i : Nat)
    (hiA : i < A.length) (hiB : i < B.length) :
    ((derived_vertices_mask A B rtol atol).getD i false = true
        ↔ ¬ ∀ p ∈ (A.getD i []).zip (B.getD i []), |p.1 - p.2| ≤ atol + rtol * |p.2|)
      ∧ (rtol = 0 →
          (∀ p ∈ (A.getD i []).zip (B.getD i []), |p.1 - p.2| ≤ atol) →
          (derived_vertices_mask A B rtol atol).getD i false = false)
      ∧ (rtol = 0 → 0 < atol →
          (∃ p ∈ (A.getD i []).zip (B.getD i []), |p.1 - p.2| = 2 * atol) →
          (derived_vertices_mask A B rtol atol).getD i false = true) := by
  rw [derived_vertices_mask_getD A B rtol atol i hiA hiB]
  refine ⟨?_, ?_, ?_⟩
  · constructor
    · intro h hall
      rw [(isclose_row_all_iff _ _ _ _).mpr hall] at h
      exact absurd h (by simp)
    · intro h
      cases hx : (isclose_row (A.getD i []) (B.getD i []) rtol atol).all id
      · simp
      · exact absurd ((isclose_row_all_iff _ _ _ _).mp hx) h
  · intro hr hall
    subst hr
    have hx : (isclose_row (A.getD i []) (B.getD i []) 0 atol).all id = true := by
      rw [isclose_row_all_iff]
      intro p hp
      have := hall p hp
      simpa using this
    rw [hx]
    rfl
  · intro hr hatol hex
    subst hr
    obtain ⟨p, hp, hdiff⟩ := hex
    cases hx : (isclose_row (A.getD i []) (B.getD i []) 0 atol).all id
    · simp
    · have hle := (isclose_row_all_iff _ _ _ _).mp hx p hp
      rw [hdiff] at hle
      simp at hle
      linarith

/-- Witness for C3: coordinates differing by exactly atol and by 2*atol
with rtol = 0 and atol = 1. -/
theorem derived_mask_spec_witness :
    (((derived_vertices_mask [[0], [0]] [[1], [2]] 0 1).getD 1 false = true
        ↔ ¬ ∀ p ∈ (([[0], [0]] : List (List ℚ)).getD 1 []).zip
              (([[1], [2]] : List (List ℚ)).getD 1 []),
            |p.1 - p.2| ≤ 1 + 0 * |p.2|)
      ∧ ((0 : ℚ) = 0 →
          (∀ p ∈ (([[0], [0]] : List (List ℚ)).getD 1 []).zip
              (([[1], [2]] : List (List ℚ)).getD 1 []), |p.1 - p.2| ≤ 1) →
          (derived_vertices_mask [[0], [0]] [[1], [2]] 0 1).getD 1 false = false)
      ∧ ((0 : ℚ) = 0 → (0 : ℚ) < 1 →
          (∃ p ∈ (([[0], [0]] : List (List ℚ)).getD 1 []).zip
              (([[1], [2]] : List (List ℚ)).getD 1 []), |p.1 - p.2| = 2 * 1) →
          (derived_vertices_mask [[0], [0]] [[1], [2]] 0 1).getD 1 false = true)) :=
  derived_mask_spec [[0], [0]] [[1], [2]] 0 1 1 (by decide) (by decide)

theorem mem_zip_self {α : Type} (l : List α) (p : α × α) (h : p ∈ l.zip l) :
    p.1 = p.2 := by
  induction l with
  | nil => simp [List.zip] at h
  | cons x xs ih =>
    rw [List.zip_cons_cons] at h
    rcases List.mem_cons.mp h with rfl | h2
    · rfl
    · exact ih h2

/-- With equal vertex arrays and nonnegative tolerances the derived mask is
everywhere false. -/
theorem derived_mask_self_false (A : List (List ℚ)) (rtol atol : ℚ)
    (hr : 0 ≤ rtol) (ha : 0 ≤ atol) :
    ∀ b ∈ derived_vertices_mask A A rtol atol, b = false := by
  intro b hb
  unfold derived_vertices_mask at hb
  obtain ⟨p, hp, rfl⟩ := List.mem_map.mp hb
  have hpq : p.1 = p.2 := mem_zip_self A p hp
  have hall : (isclose_row p.1 p.2 rtol atol).all id = true := by
    rw [isclose_row_all_iff]
    intro q hq
    rw [← hpq] at hq
    have hq2 : q.1 = q.2 := mem_zip_self p.1 q hq
    rw [hq2, sub_self, abs_zero]
    exact add_nonneg ha (mul_nonneg hr (abs_nonneg _))
  rw [hall]
  rfl

theorem maskGet_eq_false (mask : List Bool) (h : ∀ b ∈ mask, b = false) (v : Nat) :
    maskGet mask v = false := by
  unfold maskGet
  by_cases hv : v < mask.length
  · rw [List.getD_eq_getElem _ _ hv]
    exact h _ (List.getElem_mem _)
  · exact getD_of_length_le _ _ _ (by omega)

theorem mask_select_eq_nil {α : Type} (xs : List α) (mask : List Bool)
    (h : ∀ b ∈ mask, b = false) : mask_select xs mask = [] := by
  induction xs generalizing mask with
  | nil => rfl
  | cons x xs ih =>
    cases mask with
    | nil => rfl
    | cons b bs =>
      have hb : b = false := h b (List.mem_cons_self _ _)
      subst hb
      rw [mask_select_cons, if_neg (by simp)]
      exact ih bs (fun c hc => h c (List.mem_cons_of_mem _ hc))

/-- With an everywhere-false vertex mask, get_boolean_difference returns
empty vertex and face arrays. -/
theorem boolean_difference_empty_of_all_false (A B : List (List ℚ))
    (faces : List (List Nat)) (mask : List Bool) (h : ∀ b ∈ mask, b = false) :
    get_boolean_difference A B faces mask = ([], []) := by
  have hmg : ∀ v, maskGet mask v = false := maskGet_eq_false mask h
  have hany : ∀ f : List Nat, face_any mask f = false := by
    intro f
    cases hfa : face_any mask f
    · rfl
    · obtain ⟨v, hv, hvm⟩ := List.any_eq_true.mp hfa
      rw [hmg v] at hvm
      exact absurd hvm (by simp)
  have hborder : ∀ f : List Nat, face_border mask f = false := by
    intro f
    unfold face_border
    have hc : (f.map (maskGet mask)).count true = 0 := by
      rw [List.count_eq_zero]
      intro hmem
      obtain ⟨v, hv, hvm⟩ := List.mem_map.mp hmem
      rw [hmg v] at hvm
      exact absurd hvm (by simp)
    simp [hc]
  have hkept : kept_faces faces mask = [] := by
    unfold kept_faces
    rw [inside_faces_true_eq]
    apply mask_select_eq_nil
    intro b hb
    obtain ⟨f, hf, rfl⟩ := List.mem_map.mp hb
    exact hany f
  have hanchor : ∀ b ∈ outside_border_vertices_mask faces mask, b = false := by
    intro b hb
    obtain ⟨i, hi, hbi⟩ := List.mem_iff_getElem.mp hb
    cases hbval : b
    · rfl
    · subst hbval
      have hlen : i < mask.length := by
        have := get_border_vertices_mask_length faces mask
          (some (get_border_faces_mask faces mask)) true
        unfold outside_border_vertices_mask at hi
        omega
      have hgd : (outside_border_vertices_mask faces mask).getD i false = true := by
        rw [List.getD_eq_getElem _ _ hi]
        exact hbi
      obtain ⟨f, hf, hfb, _, _⟩ :=
        (outside_border_getD_iff faces mask i hlen).mp hgd
      rw [hborder f] at hfb
      exact absurd hfb (by simp)
  unfold get_boolean_difference
  simp only [hkept, mask_select_eq_nil A _ hanchor, mask_select_eq_nil A mask h,
    mask_select_eq_nil B mask h, List.map_nil, List.append_nil, List.nil_append]

/-- Claim C4: with identical vertex arrays and an auto-derived mask (and the
nonnegative tolerances numpy.isclose uses), the boolean difference is the
empty mesh. -/
theorem boolean_difference_idempotent (A : List (List ℚ)) (faces : List (List Nat))
    (rtol atol : ℚ) (hr : 0 ≤ rtol) (ha : 0 ≤ atol) :
    get_boolean_difference_auto A A faces rtol atol = ([], []) := by
  unfold get_boolean_difference_auto
  exact boolean_difference_empty_of_all_false A A faces _
    (derived_mask_self_false A rtol atol hr ha)

/-- Witness for C4 at a concrete mesh with the default tolerances. -/
theorem boolean_difference_idempotent_witness :
    get_boolean_difference_auto [[1, 2], [3, 4]] [[1, 2], [3, 4]] [[0, 1]]
        (1 / 100000) (1 / 100000000) = ([], []) :=
  boolean_difference_idempotent [[1, 2], [3, 4]] [[0, 1]] (1 / 100000) (1 / 100000000)
    (by norm_num) (by norm_num)

/-! ### Claims C1 and C9: winding and index range of the output faces -/

/-- Claim C1 as literally stated fails: with every vertex of a triangle
masked, the back face is [5, 4, 3] while the reversed front face is
[2, 1, 0] — masked vertices get back-copy ids, not the front ids. -/
theorem back_face_not_literal_reverse :
    ((get_boolean_difference [[0], [0], [0]] [[1], [1], [1]] [[0, 1, 2]]
        [true, true, true]).2.getD
        ((get_inside_faces_mask [[0, 1, 2]] [true, true, true] true).count true + 0) [])
      ≠ ((get_boolean_difference [[0], [0], [0]] [[1], [1], [1]] [[0, 1, 2]]
          [true, true, true]).2.getD 0 []).reverse := by decide

/-- Claim C1 (amended): for every well-formed input, the back face at output
index |faceMask| + i lists the same original vertices as the front face at
index i in exactly reversed order; at each position its id is the front id
at the mirrored position, shifted by |vertexMask| exactly when that vertex
is a masked copy (anchor ids coincide). -/
theorem back_face_is_shifted_reverse (A B : List (List ℚ)) (faces : List (List Nat))
    (mask : List Bool) (hwf : WellFormed A B faces mask) (i p : Nat)
    (hi : i < (get_inside_faces_mask faces mask true).count true)
    (hp : p < ((kept_faces faces mask).getD i []).length) :
    ((get_boolean_difference A B faces mask).2.getD
        ((get_inside_faces_mask faces mask true).count true + i) []).getD p 0
      = ((get_boolean_difference A B faces mask).2.getD i []).getD
          (((kept_faces faces mask).getD i []).length - 1 - p) 0
        + (if maskGet mask (((kept_faces faces mask).getD i []).getD
              (((kept_faces faces mask).getD i []).length - 1 - p) 0)
           then mask.count true else 0) := by
  obtain ⟨hA, hB, hidx⟩ := hwf
  have hkl : i < (kept_faces faces mask).length := by
    rw [kept_faces_length]; exact hi
  have hq : ((kept_faces faces mask).getD i []).length - 1 - p
      < ((kept_faces faces mask).getD i []).length := by omega
  have hfmem : (kept_faces faces mask).getD i [] ∈ faces
      ∧ face_any mask ((kept_faces faces mask).getD i []) = true := by
    have hmem : (kept_faces faces mask).getD i []
        ∈ mask_select faces (faces.map (face_any mask)) := getD_mem _ _ _ hkl
    exact (mem_mask_select_map (face_any mask) faces _).mp hmem
  have hwmem : ((kept_faces faces mask).getD i []).getD
      (((kept_faces faces mask).getD i []).length - 1 - p) 0
      ∈ (kept_faces faces mask).getD i [] := getD_mem _ _ _ hq
  have hwA : ((kept_faces faces mask).getD i []).getD
      (((kept_faces faces mask).getD i []).length - 1 - p) 0 < A.length := by
    have := hidx _ hfmem.1 _ hwmem
    omega
  rw [diff_faces_getD_back A B faces mask i hi, diff_faces_getD_front A B faces mask i hi]
  rw [getD_map _ _ _ 0 _ (by rw [List.length_reverse]; exact hp)]
  rw [getD_reverse _ _ _ hp]
  rw [getD_map _ _ _ 0 _ hq]
  exact id_back_eq_front_add A.length (outside_border_vertices_mask faces mask) mask _ _ hwA

/-- Witness for the amended C1 at the tetrahedron with one masked vertex. -/
theorem back_face_is_shifted_reverse_witness :
    ((get_boolean_difference
        [[0, 0, 0], [1, 0, 0], [0, 1, 0], [0, 0, 1]]
        [[0, 0, 9], [1, 0, 0], [0, 1, 0], [0, 0, 1]]
        [[0, 1, 2], [0, 1, 3], [0, 2, 3], [1, 2, 3]]
        [true, false, false, false]).2.getD
        ((get_inside_faces_mask [[0, 1, 2], [0, 1, 3], [0, 2, 3], [1, 2, 3]]
          [true, false, false, false] true).count true + 0) []).getD 0 0
      = ((get_boolean_difference
          [[0, 0, 0], [1, 0, 0], [0, 1, 0], [0, 0, 1]]
          [[0, 0, 9], [1, 0, 0], [0, 1, 0], [0, 0, 1]]
          [[0, 1, 2], [0, 1, 3], [0, 2, 3], [1, 2, 3]]
          [true, false, false, false]).2.getD 0 []).getD
          (((kept_faces [[0, 1, 2], [0, 1, 3], [0, 2, 3], [1, 2, 3]]
              [true, false, false, false]).getD 0 []).length - 1 - 0) 0
        + (if maskGet [true, false, false, false]
              (((kept_faces [[0, 1, 2], [0, 1, 3], [0, 2, 3], [1, 2, 3]]
                  [true, false, false, false]).getD 0 []).getD
                (((kept_faces [[0, 1, 2], [0, 1, 3], [0, 2, 3], [1, 2, 3]]
                    [true, false, false, false]).getD 0 []).length - 1 - 0) 0)
           then ([true, false, false, false] : List Bool).count true else 0) :=
  back_face_is_shifted_reverse
    [[0, 0, 0], [1, 0, 0], [0, 1, 0], [0, 0, 1]]
    [[0, 0, 9], [1, 0, 0], [0, 1, 0], [0, 0, 1]]
    [[0, 1, 2], [0, 1, 3], [0, 2, 3], [1, 2, 3]]
    [true, false, false, false]
    (by refine ⟨by decide, by decide, by decide⟩) 0 0 (by decide) (by decide)

/-- Claim C9: for a well-formed input, every vertex index in the output face
array is below the number of output vertex rows. -/
theorem diff_faces_indices_in_range (A B : List (List ℚ)) (faces : List (List Nat))
    (mask : List Bool) (hwf : WellFormed A B faces mask) :
    ∀ fo ∈ (get_boolean_difference A B faces mask).2, ∀ x ∈ fo,
      x < (get_boolean_difference A B faces mask).1.length := by
  obtain ⟨hA, hB, hidx⟩ := hwf
  intro fo hfo x hx
  rw [diff_vertices_length A B faces mask hA hB]
  unfold get_boolean_difference at hfo
  simp only [List.mem_append] at hfo
  rcases hfo with hfo | hfo
  · obtain ⟨f, hf, rfl⟩ := List.mem_map.mp hfo
    obtain ⟨hffaces, hfany⟩ := (mem_mask_select_map (face_any mask) faces f).mp hf
    obtain ⟨v, hv, rfl⟩ := List.mem_map.mp hx
    have hvm : v < mask.length := hidx f hffaces v hv
    have hvA : v < A.length := by omega
    apply id_front_lt A.length (outside_border_vertices_mask faces mask) mask v v hvA
    by_cases hm : maskGet mask v = true
    · exact Or.inl hm
    · exact Or.inr (anchor_of_kept_unmasked faces mask f hffaces hfany v hv
        (by simpa using hm) hvm)
  · obtain ⟨f, hf, rfl⟩ := List.mem_map.mp hfo
    obtain ⟨hffaces, hfany⟩ := (mem_mask_select_map (face_any mask) faces f).mp hf
    obtain ⟨v, hv, rfl⟩ := List.mem_map.mp hx
    have hv2 : v ∈ f := List.mem_reverse.mp hv
    have hvm : v < mask.length := hidx f hffaces v hv2
    have hvA : v < A.length := by omega
    apply id_back_lt A.length (outside_border_vertices_mask faces mask) mask v v hvA
    by_cases hm : maskGet mask v = true
    · exact Or.inl hm
    · exact Or.inr (anchor_of_kept_unmasked faces mask f hffaces hfany v hv2
        (by simpa using hm) hvm)

/-- Witness for C9 at the tetrahedron with one masked vertex. -/
theorem diff_faces_indices_in_range_witness :
    [3, 0, 1] ∈ (get_boolean_difference
        [[0, 0, 0], [1, 0, 0], [0, 1, 0], [0, 0, 1]]
        [[0, 0, 9], [1, 0, 0], [0, 1, 0], [0, 0, 1]]
        [[0, 1, 2], [0, 1, 3], [0, 2, 3], [1, 2, 3]]
        [true, false, false, false]).2
      ∧ 3 ∈ ([3, 0, 1] : List Nat)
      ∧ 3 < (get_boolean_difference
        [[0, 0, 0], [1, 0, 0], [0, 1, 0], [0, 0, 1]]
        [[0, 0, 9], [1, 0, 0], [0, 1, 0], [0, 0, 1]]
        [[0, 1, 2], [0, 1, 3], [0, 2, 3], [1, 2, 3]]
        [true, false, false, false]).1.length :=
  ⟨by decide, by decide,
    diff_faces_indices_in_range
      [[0, 0, 0], [1, 0, 0], [0, 1, 0], [0, 0, 1]]
      [[0, 0, 9], [1, 0, 0], [0, 1, 0], [0, 0, 1]]
      [[0, 1, 2], [0, 1, 3], [0, 2, 3], [1, 2, 3]]
      [true, false, false, false]
      ⟨by decide, by decide, by decide⟩ [3, 0, 1] (by decide) 3 (by decide)⟩

/-! ### Claims C7, C8, C10 -/

/-- Claim C7: the docstring of displace_vertices admits a length of shape
(n, d), but with n = d = 2 (vertices, directions and length all (2, 2),
mask the uniform boolean True) the expression
np.atleast_1d(length * mask)[:, None] * directions broadcasts (2, 1, 2)
against (2, 2) and the result has shape (2, 2, 2) instead of the promised
(2, 2) displaced vertex array. -/
theorem displace_per_axis_length_wrong_shape :
    (displace_vertices ⟨[2, 2], [0, 0, 0, 0]⟩ ⟨[2, 2], [1, 1, 1, 1]⟩
        ⟨[2, 2], [1, 2, 3, 4]⟩ ⟨[], [1]⟩).map NDArray.shape = some [2, 2, 2]
      ∧ [2, 2, 2] ≠ ([2, 2] : List Nat) := ⟨by rfl, by decide⟩

/-- Claim C8: a dimensionality disagreement that is not rejected: verticesB
has one column against verticesA's two, every shape check numpy performs in
get_boolean_difference passes, and the call returns a full-size mesh with
B's single column silently broadcast across both output columns. -/
theorem shape_mismatch_not_rejected :
    get_boolean_difference_checked [[0, 0], [1, 1]] [[5], [6]] [[0, 1]] [true, true]
      = Except.ok ([[0, 0], [1, 1], [5, 5], [6, 6]], [[0, 1], [3, 2]]) := by rfl

/-- Claim C10: for a nonempty rectangular 2-d texture, the clamped sample
indices of get_vertex_color_from_texture lie in [0, shape - 1] on each
axis, so both list lookups are in range for every texture coordinate,
including coordinates below 0 or at or above 1. -/
theorem texture_sample_indices_in_range (tcoords : List (ℚ × ℚ))
    (texture : List (List ℚ)) (t : ℚ × ℚ) (_hmem : t ∈ tcoords)
    (hp : 0 < texture.length) (hq : 0 < (texture.headD []).length)
    (hrect : ∀ row ∈ texture, row.length = (texture.headD []).length) :
    0 ≤ clamp_index texture.length t.1
      ∧ clamp_index texture.length t.1 ≤ (texture.length : Int) - 1
      ∧ 0 ≤ clamp_index (texture.headD []).length t.2
      ∧ clamp_index (texture.headD []).length t.2
          ≤ ((texture.headD []).length : Int) - 1
      ∧ (clamp_index texture.length t.1).toNat < texture.length
      ∧ (clamp_index (texture.headD []).length t.2).toNat
          < (texture.getD (clamp_index texture.length t.1).toNat []).length := by
  have h1 : (clamp_index texture.length t.1).toNat < texture.length := by
    unfold clamp_index
    omega
  have hrow : (texture.getD (clamp_index texture.length t.1).toNat []).length
      = (texture.headD []).length :=
    hrect _ (getD_mem _ _ _ h1)
  refine ⟨?_, ?_, ?_, ?_, h1, ?_⟩
  · unfold clamp_index
    omega
  · unfold clamp_index
    omega
  · unfold clamp_index
    omega
  · unfold clamp_index
    omega
  · rw [hrow]
    unfold clamp_index
    omega

/-- Witness for C10: an out-of-range coordinate pair against a 2-by-2
texture. -/
theorem texture_sample_indices_in_range_witness :
    0 ≤ clamp_index ([[1, 2], [3, 4]] : List (List ℚ)).length (3 / 2)
      ∧ clamp_index ([[1, 2], [3, 4]] : List (List ℚ)).length (3 / 2)
          ≤ (([[1, 2], [3, 4]] : List (List ℚ)).length : Int) - 1
      ∧ 0 ≤ clamp_index (([[1, 2], [3, 4]] : List (List ℚ)).headD []).length (-1 / 4)
      ∧ clamp_index (([[1, 2], [3, 4]] : List (List ℚ)).headD []).length (-1 / 4)
          ≤ ((([[1, 2], [3, 4]] : List (List ℚ)).headD []).length : Int) - 1
      ∧ (clamp_index ([[1, 2], [3, 4]] : List (List ℚ)).length (3 / 2)).toNat
          < ([[1, 2], [3, 4]] : List (List ℚ)).length
      ∧ (clamp_index (([[1, 2], [3, 4]] : List (List ℚ)).headD []).length (-1 / 4)).toNat
          < (([[1, 2], [3, 4]] : List (List ℚ)).getD
              (clamp_index ([[1, 2], [3, 4]] : List (List ℚ)).length (3 / 2)).toNat
              []).length :=
  texture_sample_indices_in_range [((3 : ℚ) / 2, (-1 : ℚ) / 4)] [[1, 2], [3, 4]]
    ((3 : ℚ) / 2, (-1 : ℚ) / 4) (by simp) (by decide) (by decide) (by decide)

end MeshDD
